import Mathlib

/-
  Verification development for the BoardCrab chess engine core.

  Shallow embedding of src/src/search.rs and src/src/lib.rs.  The search
  collaborators that are not among the provided sources (board.rs, move_gen.rs,
  eval.rs, transpos.rs, zobrist.rs, thread_flag.rs) are modelled from the
  specification: boards are records exposing exactly the observables the search
  reads (hash, checkers), and move generation / evaluation / decay are abstract
  functions collected in a `Rules` structure.  Rust f32 evaluation values are
  modelled as integers (the search only negates and compares them), u64 hashes
  as naturals, and Rust panics as `none` results.  The wall-clock deadline
  (std::time::Instant) is modelled by a virtual clock: the monotonically
  increasing node counter.
-/

/-- Evaluation value.  Modelled from the spec: a real-valued score; the search
only negates and compares values, so an ordered integer model is used. -/
abbrev Value := Int

/-- Modelled from the spec: a large finite checkmate score. -/
def VALUE_CHECKMATE : Value := 1000000

/-- Modelled from the spec: the sentinel reserved to signal search-aborted,
strictly larger than any checkmate score. -/
def VALUE_INF : Value := 1000000000

/-- 64-bit Zobrist hash, modelled as a natural number. -/
abbrev Hash := Nat

/-- Modelled from the spec: a move record.  Only the flag set is observed by
search.rs (through is_extending_move); `id` distinguishes distinct moves. -/
structure Move where
  flags : Nat
  id : Nat
deriving DecidableEq

def Move.FLAG_CAPTURE : Nat := 1
def Move.FLAG_PROMOTION : Nat := 2

def Move.has_flag (mv : Move) (f : Nat) : Bool := mv.flags &&& f ≠ 0

def Move.null : Move := ⟨0, 0⟩

/-- Modelled from the spec: board.rs is not among the provided sources.  Only
the fields search.rs reads are kept: the Zobrist hash and the checkers mask.
`id` distinguishes positions, so that distinct positions may share a hash
(hash collisions). -/
structure Board where
  hash : Hash
  checkers : Nat
  id : Nat
deriving DecidableEq

/-- Modelled from the spec: the abstract collaborators of the search
(move generator, board successor function, static evaluator, move-ordering
heuristic, and the per-ply evaluation decay operator). -/
structure Rules where
  generate_moves : Board → List Move
  do_move : Board → Move → Board
  eval_board : Board → Value
  eval_move : Board → Move → Value
  decay_eval : Value → Value

/-- Modelled from the spec: transposition entry kinds. -/
inductive EntryType where
  | Exact
  | LowerBound
  | UpperBound
deriving DecidableEq

/-- Modelled from the spec: a transposition-table entry. -/
structure Entry where
  hash : Hash
  eval : Value
  best_move_idx : Nat
  depth_remaining : Nat
  entry_type : EntryType
  age_count : Nat
deriving DecidableEq

/-- Modelled from the spec: an entry is valid when its depth-remaining > 0
(zero is the sentinel for empty slots). -/
def Entry.is_valid (e : Entry) : Bool := e.depth_remaining > 0

def Entry.empty : Entry := ⟨0, 0, 0, 0, EntryType.Exact, 0⟩

/-- Modelled from the spec: a fixed-capacity table indexed by hash mod
capacity, with a current-age counter advanced between iterations. -/
structure Table where
  slots : List Entry
  age : Nat
deriving DecidableEq

/-- Modelled from the spec: lookup returns the slot contents. -/
def Table.get (t : Table) (h : Hash) : Entry :=
  t.slots.getD (h % t.slots.length) Entry.empty

/-- Modelled from the spec: store with the depth-preferred aging replacement
policy; overwrite empty or same-hash slots, otherwise prefer to replace older
or shallower entries, the incoming entry winning ties.  Newly stored entries
adopt the current age. -/
def Table.set (t : Table) (e : Entry) : Table :=
  if t.slots.length = 0 then t
  else
    let i := e.hash % t.slots.length
    let stored := t.slots.getD i Entry.empty
    let incoming := {e with age_count := t.age}
    if ¬ stored.is_valid ∨ stored.hash = e.hash
        ∨ stored.age_count < t.age ∨ stored.depth_remaining ≤ e.depth_remaining then
      {t with slots := t.slots.set i incoming}
    else t

/-- search.rs lines 106-118: per-invocation search bookkeeping.  The 256-entry
depth_hashes array is modelled as a total function from ply index to hash. -/
structure SearchInfo where
  total_nodes : Nat
  depth_hashes : Nat → Hash

def SearchInfo.new : SearchInfo := ⟨0, fun _ => 0⟩

def bumpNodes (si : SearchInfo) : SearchInfo :=
  {si with total_nodes := si.total_nodes + 1}

/-- search.rs line 145: depth_hashes[depth_elapsed] = board.hash -/
def recordHash (si : SearchInfo) (depth_elapsed : Nat) (h : Hash) : SearchInfo :=
  {si with depth_hashes := fun j => if j = depth_elapsed then h else si.depth_hashes j}

/-- search.rs lines 120-123. -/
structure SearchResult where
  eval : Value
  best_move_idx : Option Nat
deriving DecidableEq

/-- search.rs lines 48-50. -/
def get_no_moves_eval (board : Board) : Value :=
  if board.checkers ≠ 0 then -VALUE_CHECKMATE else 0

/-- search.rs lines 52-54. -/
def is_extending_move (mv : Move) : Bool :=
  mv.has_flag Move.FLAG_CAPTURE || mv.has_flag Move.FLAG_PROMOTION

/-- search.rs line 57. -/
def MAX_EXTENSION_DEPTH : Nat := 4

/-- search.rs lines 134-144: the repetition-detection loop
for i in (4..10).step_by(2).  The loop body returns on a match and otherwise
breaks, so later offsets are only reached if earlier iterations neither
returned nor broke (which never happens: each iteration does one or the
other). -/
def repetitionLoop (si : SearchInfo) (depth_elapsed : Nat) (h : Hash) :
    List Nat → Bool
  | [] => false
  | i :: _rest =>
    if depth_elapsed ≥ i ∧ si.depth_hashes (depth_elapsed - i) = h then
      true  -- loop detected: return draw
    else
      false -- else branch: break

def repetitionDraw (si : SearchInfo) (depth_elapsed : Nat) (h : Hash) : Bool :=
  repetitionLoop si depth_elapsed h [4, 6, 8]

/-- search.rs lines 147-165: the cooperative stop check.  The wall-clock
comparison Instant::now() >= stop_time is modelled against the virtual clock
`now` (the node counter, which increases by one at every node). -/
def stopCheck (stop_flag : Bool) (stop_time : Option Nat) (now : Nat) : Bool :=
  if stop_flag then true
  else
    match stop_time with
    | some t => now ≥ t
    | none => false

/-- Outcome of the table-probe block, search.rs lines 167-201. -/
inductive ProbeOut where
  | earlyReturn (r : SearchResult)
  | useHint (table_best_move : Option Nat)
deriving DecidableEq

/-- search.rs lines 167-201.  The wildcard arm there raises an invariant
violation for entry kinds outside {Exact, LowerBound, UpperBound}; the
modelled EntryType has exactly those three constructors, so the arm is
unrepresentable. -/
def probeTable (table_entry : Entry) (depth_remaining : Nat)
    (upper_bound : Value) : ProbeOut :=
  if table_entry.is_valid then
    if table_entry.depth_remaining ≥ depth_remaining then
      match table_entry.entry_type with
      | EntryType.Exact | EntryType.LowerBound =>
        ProbeOut.earlyReturn ⟨table_entry.eval, some table_entry.best_move_idx⟩
      | EntryType.UpperBound =>
        if table_entry.eval ≥ upper_bound then
          ProbeOut.earlyReturn ⟨table_entry.eval, some table_entry.best_move_idx⟩
        else
          ProbeOut.useHint (some table_entry.best_move_idx)
    else
      ProbeOut.useHint (some table_entry.best_move_idx)
  else
    ProbeOut.useHint none

/-- search.rs lines 213-217. -/
structure RatedMove where
  idx : Nat
  eval : Value
deriving DecidableEq

/-- search.rs lines 219-227: rated_moves[i] = { idx: i, eval: eval_move(board, moves[i]) }. -/
def ratedOf (R : Rules) (board : Board) (moves : List Move) : List RatedMove :=
  (List.range moves.length).map
    (fun i => ⟨i, R.eval_move board (moves.getD i Move.null)⟩)

/-- search.rs lines 229-231: rated_moves[table_best_move.unwrap()].eval = VALUE_INF.
The Rust indexing is unchecked and panics when the hint is out of range;
the panic is modelled as `none`. -/
def applyHint (rated : List RatedMove) : Option Nat → Option (List RatedMove)
  | none => some rated
  | some i =>
    match rated.get? i with
    | some r => some (rated.set i {r with eval := VALUE_INF})
    | none => none

/-- search.rs lines 233-250: the in-place insertion sort, as a functional
insertion sort.  An element bubbles left while strictly greater than its
predecessor, i.e. it is inserted after every element with an evaluation
greater than or equal to its own; elements are processed in buffer order. -/
def insRated (x : RatedMove) : List RatedMove → List RatedMove
  | [] => [x]
  | y :: ys => if x.eval > y.eval then x :: y :: ys else y :: insRated x ys

def sortRated (l : List RatedMove) : List RatedMove :=
  l.foldl (fun acc x => insRated x acc) []

/-- Running state of the move loop, search.rs lines 252-254. -/
structure LoopSt where
  best_eval : Value
  best_move_idx : Nat
  lower_bound : Value
  upper_bound_hit : Bool
deriving DecidableEq

/-- Outcome of the move loop: a propagated panic from a child, a propagated
abort (search.rs lines 269-275), or normal completion. -/
inductive LoopOut where
  | fail
  | abort (t : Table) (si : SearchInfo)
  | done (st : LoopSt) (t : Table) (si : SearchInfo)

/-- search.rs lines 255-291: the child-search loop.  `recur` is the recursive
search at depth_remaining - 1; its arguments are the child board, the threaded
table and info, and the child window (lower, upper). -/
def searchLoop (R : Rules) (board : Board) (moves : List Move)
    (upper_bound : Value)
    (recur : Board → Table → SearchInfo → Value → Value →
      Option (SearchResult × Table × SearchInfo)) :
    List RatedMove → LoopSt → Table → SearchInfo → LoopOut
  | [], st, t, si => LoopOut.done st t si
  | r :: rest, st, t, si =>
    let mv := moves.getD r.idx Move.null
    let next_board := R.do_move board mv
    match recur next_board t si (-upper_bound) (-st.lower_bound) with
    | none => LoopOut.fail
    | some (next_result, t', si') =>
      if next_result.eval = VALUE_INF then
        LoopOut.abort t' si'
      else
        let next_eval := R.decay_eval (-next_result.eval)
        if next_eval > st.best_eval then
          let st' : LoopSt :=
            { best_eval := next_eval, best_move_idx := r.idx,
              lower_bound := if next_eval > st.lower_bound then next_eval else st.lower_bound,
              upper_bound_hit := st.upper_bound_hit }
          if next_eval ≥ upper_bound then
            LoopOut.done {st' with upper_bound_hit := true} t' si'
          else
            searchLoop R board moves upper_bound recur rest st' t' si'
        else
          searchLoop R board moves upper_bound recur rest st t' si'

/-- Proof instrument (not a source translation): recomputes the sequence of
decayed child values the loop examines, in examination order, stopping where
the loop stops.  Used to state when a beta cut occurred. -/
def loopTrace (R : Rules) (board : Board) (moves : List Move)
    (upper_bound : Value)
    (recur : Board → Table → SearchInfo → Value → Value →
      Option (SearchResult × Table × SearchInfo)) :
    List RatedMove → LoopSt → Table → SearchInfo → List Value
  | [], _, _, _ => []
  | r :: rest, st, t, si =>
    match recur (R.do_move board (moves.getD r.idx Move.null)) t si
        (-upper_bound) (-st.lower_bound) with
    | none => []
    | some (next_result, t', si') =>
      if next_result.eval = VALUE_INF then []
      else
        let next_eval := R.decay_eval (-next_result.eval)
        if next_eval > st.best_eval then
          if next_eval ≥ upper_bound then [next_eval]
          else
            next_eval ::
              loopTrace R board moves upper_bound recur rest
                { best_eval := next_eval, best_move_idx := r.idx,
                  lower_bound := if next_eval > st.lower_bound then next_eval else st.lower_bound,
                  upper_bound_hit := st.upper_bound_hit } t' si'
        else
          next_eval :: loopTrace R board moves upper_bound recur rest st t' si'

/-- search.rs lines 60-104: the loop over extending moves inside
extension_search.  `recur` is extension_search at depth_remaining - 1. -/
def extLoop (R : Rules) (board : Board) (upper_bound : Value)
    (recur : Board → SearchInfo → Value → Value → Value × SearchInfo) :
    List Move → Value → Value → SearchInfo → Value × SearchInfo
  | [], best_eval, _lower_bound, si => (best_eval, si)
  | mv :: rest, best_eval, lower_bound, si =>
    if ¬ is_extending_move mv then
      extLoop R board upper_bound recur rest best_eval lower_bound si
    else
      let p := recur (R.do_move board mv) si (-upper_bound) (-lower_bound)
      let next_eval := R.decay_eval (-p.1)
      if next_eval > best_eval then
        let lower_bound' := if next_eval > lower_bound then next_eval else lower_bound
        if next_eval ≥ upper_bound then (next_eval, p.2)
        else extLoop R board upper_bound recur rest next_eval lower_bound' p.2
      else
        extLoop R board upper_bound recur rest best_eval lower_bound p.2

/-- search.rs lines 60-104: quiescence extension over capturing and promoting
moves only. -/
def extension_search (R : Rules) :
    Nat → Board → SearchInfo → Value → Value → Value × SearchInfo
  | depth_remaining, board, search_info0, lower_bound0, upper_bound =>
    let search_info := bumpNodes search_info0
    let best_eval := R.eval_board board
    if best_eval ≥ upper_bound then (best_eval, search_info)
    else
      let lower_bound := if best_eval > lower_bound0 then best_eval else lower_bound0
      match depth_remaining with
      | 0 => (best_eval, search_info)
      | dnext + 1 =>
        let moves := R.generate_moves board
        if moves = [] then (get_no_moves_eval board, search_info)
        else
          extLoop R board upper_bound
            (fun b s lb ub => extension_search R dnext b s lb ub)
            moves best_eval lower_bound search_info

/-- search.rs lines 125-315: the recursive negamax search.  A `none` result
models a Rust panic (the unchecked hint indexing, line 230). -/
def _search (R : Rules) (stop_flag : Bool) (stop_time : Option Nat) :
    Nat → Board → Table → SearchInfo → Value → Value → Nat →
    Option (SearchResult × Table × SearchInfo)
  | depth_remaining, board, table, search_info0, lower_bound, upper_bound, depth_elapsed =>
    let search_info := bumpNodes search_info0
    -- lines 133-144: check draw by repetition
    if repetitionDraw search_info depth_elapsed board.hash then
      some (⟨0, none⟩, table, search_info)
    else
      -- line 145
      let search_info := recordHash search_info depth_elapsed board.hash
      -- lines 147-165: abort check, only when depth_remaining > 2
      if depth_remaining > 2 ∧ stopCheck stop_flag stop_time search_info.total_nodes = true then
        some (⟨VALUE_INF, none⟩, table, search_info)
      else
        -- lines 167-201: table probe
        match probeTable (table.get board.hash) depth_remaining upper_bound with
        | ProbeOut.earlyReturn r => some (r, table, search_info)
        | ProbeOut.useHint table_best_move =>
          match depth_remaining with
          | dnext + 1 =>
            -- lines 203-211: expansion
            let moves := R.generate_moves board
            if moves = [] then
              some (⟨get_no_moves_eval board, none⟩, table, search_info)
            else
              -- lines 219-231: rate moves and force the hint to the front
              match applyHint (ratedOf R board moves) table_best_move with
              | none => none
              | some rated_moves =>
                -- lines 233-291: sort and search children
                match searchLoop R board moves upper_bound
                    (fun b t si lb ub =>
                      _search R stop_flag stop_time dnext b t si lb ub (depth_elapsed + 1))
                    (sortRated rated_moves)
                    ⟨-VALUE_INF, 0, lower_bound, false⟩ table search_info with
                | LoopOut.fail => none
                | LoopOut.abort t' si' => some (⟨VALUE_INF, none⟩, t', si')
                | LoopOut.done st t' si' =>
                  -- lines 293-307: store and return
                  some (⟨st.best_eval, some st.best_move_idx⟩,
                    t'.set ⟨board.hash, st.best_eval, st.best_move_idx, dnext + 1,
                      if st.upper_bound_hit then EntryType.UpperBound else EntryType.Exact, 0⟩,
                    si')
          | 0 =>
            -- lines 309-314: leaf, quiescence extension
            let p := extension_search R MAX_EXTENSION_DEPTH board search_info lower_bound upper_bound
            some (⟨p.1, none⟩, table, p.2)

/-- search.rs lines 317-327. -/
def search (R : Rules) (board : Board) (table : Table) (depth : Nat)
    (stop_flag : Bool) (stop_time : Option Nat) :
    Option (SearchResult × Table × SearchInfo) :=
  _search R stop_flag stop_time depth board table SearchInfo.new
    (-VALUE_CHECKMATE) VALUE_CHECKMATE 0

/-- search.rs lines 333-358: the PV walk loop.  The hash space of the real
program is finite so its loop terminates; the embedding makes the bound an
explicit fuel parameter.  A `none` result models the Rust panic on an
out-of-range stored best-move index (line 349). -/
def pvGo (R : Rules) (table : Table) :
    Nat → Board → List Hash → List Move → Option (List Move)
  | 0, _, _, _ => none
  | fuel + 1, board, found_hashes, result =>
    let entry := table.get board.hash
    if entry.hash = board.hash then
      if board.hash ∈ found_hashes then
        some result  -- looped position: break
      else
        let moves := R.generate_moves board
        let best_move_idx := entry.best_move_idx
        if h : best_move_idx < moves.length then
          let best_move := moves.get ⟨best_move_idx, h⟩
          pvGo R table fuel (R.do_move board best_move)
            (board.hash :: found_hashes) (result ++ [best_move])
        else
          none  -- line 349: panics (hash collision)
    else
      some result  -- break

/-- search.rs lines 329-365.  The trailing empty-result check (line 361)
panics, modelled as `none`. -/
def determine_pv (R : Rules) (board : Board) (table : Table) (fuel : Nat) :
    Option (List Move) :=
  match pvGo R table fuel board [] [] with
  | none => none
  | some result => if result = [] then none else some result

/-- Modelled from the spec: the process-wide state touched by lib.rs
initialization.  lookup_gen.rs and zobrist.rs are not among the provided
sources; their init effects are modelled as flags, and `init_runs` counts how
many times the _init body has executed. -/
structure ProcState where
  lookup_gen_inited : Bool
  zobrist_inited : Bool
  once_done : Bool
  init_runs : Nat
deriving DecidableEq

def ProcState.fresh : ProcState := ⟨false, false, false, 0⟩

/-- lib.rs lines 14-17. -/
def _init (s : ProcState) : ProcState :=
  {s with lookup_gen_inited := true, zobrist_inited := true,
          init_runs := s.init_runs + 1}

/-- lib.rs lines 19-21: INIT_ONCE.call_once(_init). -/
def init (s : ProcState) : ProcState :=
  if s.once_done then s else {_init s with once_done := true}

/-- n successive calls of init. -/
def iterInit : Nat → ProcState → ProcState
  | 0, s => s
  | n + 1, s => iterInit n (init s)

/- Concrete fixtures used by witnesses and counterexamples. -/

def mvQ : Move := ⟨0, 10⟩
def mvC : Move := ⟨Move.FLAG_CAPTURE, 11⟩
def b0 : Board := ⟨0, 0, 0⟩
def bChk : Board := ⟨5, 3, 0⟩
def b77 : Board := ⟨77, 1, 0⟩
def tEmpty1 : Table := ⟨[Entry.empty], 0⟩
def Rnull : Rules := ⟨fun _ => [], fun b _ => b, fun _ => 0, fun _ _ => 0, fun v => v⟩
def Rstep : Rules :=
  ⟨fun b => if b.id = 0 then [mvQ] else [],
   fun b _ => ⟨b.hash + 1, 0, b.id + 1⟩,
   fun _ => 0, fun _ _ => 0, fun v => v⟩
def si6 : SearchInfo := ⟨0, fun j => if j = 0 then 77 else 0⟩
def m2a : Move := ⟨0, 100⟩
def m2b : Move := ⟨0, 101⟩
def R2 : Rules :=
  ⟨fun b => if b.id = 0 then [m2a] else if b.id = 1 then [m2b] else [],
   fun b _ => ⟨b.hash + 1, 0, b.id + 1⟩,
   fun _ => 0, fun _ _ => 0, fun v => v⟩
def b2b : Board := ⟨1, 0, 1⟩
def t2 : Table :=
  ⟨[⟨0, 0, 0, 1, EntryType.Exact, 0⟩, ⟨1, 0, 5, 1, EntryType.Exact, 0⟩], 0⟩
def e4x : Entry := ⟨9, 42, 3, 2, EntryType.Exact, 0⟩
def e4u : Entry := ⟨9, 42, 3, 2, EntryType.UpperBound, 0⟩
def b4 : Board := ⟨9, 0, 0⟩
def t4x : Table := ⟨[e4x], 0⟩
def t4u : Table := ⟨[e4u], 0⟩
def t10 : Table := ⟨[⟨0, 0, 5, 1, EntryType.Exact, 0⟩], 0⟩
def si3w : SearchInfo :=
  recordHash (bumpNodes (recordHash (bumpNodes SearchInfo.new) 0 b0.hash)) 1 1

/- Helper lemmas. -/

theorem init_once_done (s : ProcState) : (init s).once_done = true := by
  unfold init
  by_cases h : s.once_done
  · simp [h]
  · simp [h]

theorem init_of_once_done (s : ProcState) (h : s.once_done = true) : init s = s := by
  unfold init
  simp [h]

theorem iterInit_of_once_done (n : Nat) (s : ProcState) (h : s.once_done = true) :
    iterInit n s = s := by
  induction n with
  | zero => rfl
  | succ m ih => simp [iterInit, init_of_once_done s h, ih]

/-- Claim C9: init() is idempotent: calling init() twice (or any number of
times ≥ 1) leaves the process in the same state as calling it exactly once,
and the underlying _init body runs at most once. -/
theorem C9_init_idempotent :
    (∀ s : ProcState, init (init s) = init s) ∧
    (∀ n : Nat, 1 ≤ n → iterInit n ProcState.fresh = init ProcState.fresh) ∧
    (∀ n : Nat, (iterInit n ProcState.fresh).init_runs ≤ 1) := by
  refine ⟨fun s => init_of_once_done _ (init_once_done s), fun n hn => ?_, fun n => ?_⟩
  · obtain ⟨m, rfl⟩ : ∃ m, n = m + 1 := ⟨n - 1, by omega⟩
    show iterInit m (init ProcState.fresh) = init ProcState.fresh
    exact iterInit_of_once_done m _ (init_once_done _)
  · cases n with
    | zero => decide
    | succ m =>
      show (iterInit m (init ProcState.fresh)).init_runs ≤ 1
      rw [iterInit_of_once_done m _ (init_once_done _)]
      decide

/-- Witness for C9 at n = 2: calling init twice from the fresh state equals
calling it once. -/
theorem C9_init_idempotent_witness :
    iterInit 2 ProcState.fresh = init ProcState.fresh :=
  C9_init_idempotent.2.1 2 (by decide)

/-- Claim C1 (code bug): the repetition loop is supposed to check all of
i ∈ {4, 6, 8}, but its else branch breaks out of the loop, so only i = 4 is
ever examined.  Failing input: depth_elapsed = 6 with the hash recorded 6
plies back equal to the current hash (and the hash 4 plies back different).
The claimed behavior is a draw return (eval 0, no best move); the code falls
through and searches normally (here reaching the no-moves checkmate value). -/
theorem C1_repetition_window_missed :
    (6 ≥ 6 ∧ (bumpNodes si6).depth_hashes (6 - 6) = b77.hash) ∧
    repetitionDraw (bumpNodes si6) 6 b77.hash = false ∧
    (_search Rnull false none 1 b77 tEmpty1 si6
        (-VALUE_CHECKMATE) VALUE_CHECKMATE 6).map (fun p => p.1) =
      some ⟨-VALUE_CHECKMATE, none⟩ := by
  refine ⟨⟨by decide, by decide⟩, by decide, by decide⟩

/-- Counterexample for C2: a concrete PV walk that accumulates one move and
then meets a stored best-move index (5) out of range for the one-move list of
the next position.  The claim says the walk returns the partial PV [m2a]; the
code panics (modelled as none). -/
theorem C2_counterexample :
    determine_pv R2 b0 t2 8 = none ∧
    ∀ l : List Move, determine_pv R2 b0 t2 8 ≠ some l := by
  refine ⟨by decide, fun l h => ?_⟩
  rw [show determine_pv R2 b0 t2 8 = none from by decide] at h
  exact Option.noConfusion h

/-- Claim C2, amended: when the PV walk reaches a position whose table entry
matches the current hash, the position is not yet visited, and the stored
best-move index is out of range for the freshly generated move list, the walk
(and determine_pv as a whole) aborts with a panic (modelled as none) instead
of returning the partial principal variation. -/
theorem C2_pv_collision_panics (R : Rules) (table : Table) (board : Board)
    (fuel : Nat)
    (hmatch : (table.get board.hash).hash = board.hash)
    (hoob : (R.generate_moves board).length ≤ (table.get board.hash).best_move_idx) :
    (∀ (found : List Hash) (acc : List Move), board.hash ∉ found →
      pvGo R table (fuel + 1) board found acc = none) ∧
    determine_pv R board table (fuel + 1) = none := by
  have hstep : ∀ (found : List Hash) (acc : List Move), board.hash ∉ found →
      pvGo R table (fuel + 1) board found acc = none := by
    intro found acc hnew
    unfold pvGo
    simp only [hmatch, if_true, hnew, if_false, if_pos rfl]
    rw [dif_neg (by omega)]
  refine ⟨hstep, ?_⟩
  unfold determine_pv
  rw [hstep [] [] (by simp)]

/-- Witness for C2's amended theorem at the concrete collision fixture. -/
theorem C2_pv_collision_panics_witness :
    pvGo R2 t2 8 b2b [] [] = none ∧ determine_pv R2 b2b t2 8 = none :=
  ⟨(C2_pv_collision_panics R2 t2 b2b 7 (by decide) (by decide)).1 [] [] (by simp),
   (C2_pv_collision_panics R2 t2 b2b 7 (by decide) (by decide)).2⟩

/-- Claim C3: with depth_remaining > 2, a set stop flag or an expired deadline
makes the node return the +INF sentinel with no best move and the table
unchanged; and a child returning +INF makes the loop abort and the parent
return +INF immediately, with the returned table exactly the one produced by
the children so far (no store by the aborting frame). -/
theorem C3_abort_propagation :
    (∀ (R : Rules) (f : Bool) (time : Option Nat) (d : Nat) (b : Board)
        (t : Table) (si : SearchInfo) (lb ub : Value) (de : Nat),
      repetitionDraw (bumpNodes si) de b.hash = false →
      2 < d →
      stopCheck f time (si.total_nodes + 1) = true →
      _search R f time d b t si lb ub de =
        some (⟨VALUE_INF, none⟩, t, recordHash (bumpNodes si) de b.hash)) ∧
    (∀ (R : Rules) (b : Board) (moves : List Move) (ub : Value)
        (recur : Board → Table → SearchInfo → Value → Value →
          Option (SearchResult × Table × SearchInfo))
        (r : RatedMove) (rest : List RatedMove) (st : LoopSt) (t : Table)
        (si : SearchInfo) (res : SearchResult) (t' : Table) (si' : SearchInfo),
      recur (R.do_move b (moves.getD r.idx Move.null)) t si (-ub) (-st.lower_bound) =
        some (res, t', si') →
      res.eval = VALUE_INF →
      searchLoop R b moves ub recur (r :: rest) st t si = LoopOut.abort t' si') ∧
    (∀ (R : Rules) (f : Bool) (time : Option Nat) (dnext : Nat) (b : Board)
        (t : Table) (si : SearchInfo) (lb ub : Value) (de : Nat)
        (tbm : Option Nat) (rated : List RatedMove) (t' : Table) (si' : SearchInfo),
      repetitionDraw (bumpNodes si) de b.hash = false →
      ¬(dnext + 1 > 2 ∧ stopCheck f time (si.total_nodes + 1) = true) →
      probeTable (t.get b.hash) (dnext + 1) ub = ProbeOut.useHint tbm →
      R.generate_moves b ≠ [] →
      applyHint (ratedOf R b (R.generate_moves b)) tbm = some rated →
      searchLoop R b (R.generate_moves b) ub
          (fun b2 t2 si2 lb2 ub2 => _search R f time dnext b2 t2 si2 lb2 ub2 (de + 1))
          (sortRated rated) ⟨-VALUE_INF, 0, lb, false⟩ t
          (recordHash (bumpNodes si) de b.hash) =
        LoopOut.abort t' si' →
      _search R f time (dnext + 1) b t si lb ub de =
        some (⟨VALUE_INF, none⟩, t', si')) := by
  refine ⟨?_, ?_, ?_⟩
  · intro R f time d b t si lb ub de hrep hd hstop
    have hcond : d > 2 ∧
        stopCheck f time (recordHash (bumpNodes si) de b.hash).total_nodes = true :=
      ⟨hd, by simpa [recordHash, bumpNodes] using hstop⟩
    rw [_search.eq_1]
    simp only [hrep, Bool.false_eq_true, if_false, if_pos hcond]
  · intro R b moves ub recur r rest st t si res t' si' hrec hinf
    simp only [searchLoop]
    rw [hrec]
    simp [hinf]
  · intro R f time dnext b t si lb ub de tbm rated t' si' hrep habort hprobe hmoves hhint hloop
    have habort' : ¬(dnext + 1 > 2 ∧
        stopCheck f time (recordHash (bumpNodes si) de b.hash).total_nodes = true) := by
      simpa [recordHash, bumpNodes] using habort
    rw [_search.eq_1]
    simp only [hrep, Bool.false_eq_true, if_false, if_neg habort', hprobe, hmoves, hhint, hloop]

/-- Witness for C3: (i) a depth-3 node with the stop flag set returns the
abort sentinel with the table untouched; (ii) a loop step whose child returns
+INF aborts; (iii) a full depth-4 search whose child hits the deadline
propagates +INF without storing. -/
theorem C3_abort_propagation_witness :
    _search Rnull true none 3 b0 tEmpty1 SearchInfo.new
        (-VALUE_CHECKMATE) VALUE_CHECKMATE 0 =
      some (⟨VALUE_INF, none⟩, tEmpty1, recordHash (bumpNodes SearchInfo.new) 0 b0.hash) ∧
    searchLoop Rnull b0 [mvQ] VALUE_CHECKMATE
        (fun _ _ si _ _ => some (⟨VALUE_INF, none⟩, tEmpty1, si))
        [⟨0, 0⟩] ⟨-VALUE_INF, 0, -VALUE_CHECKMATE, false⟩ tEmpty1 SearchInfo.new =
      LoopOut.abort tEmpty1 SearchInfo.new ∧
    _search Rstep false (some 2) 4 b0 tEmpty1 SearchInfo.new
        (-VALUE_CHECKMATE) VALUE_CHECKMATE 0 =
      some (⟨VALUE_INF, none⟩, tEmpty1, si3w) :=
  ⟨C3_abort_propagation.1 Rnull true none 3 b0 tEmpty1 SearchInfo.new
      (-VALUE_CHECKMATE) VALUE_CHECKMATE 0 (by decide) (by decide) rfl,
   C3_abort_propagation.2.1 Rnull b0 [mvQ] VALUE_CHECKMATE
      (fun _ _ si _ _ => some (⟨VALUE_INF, none⟩, tEmpty1, si))
      ⟨0, 0⟩ [] ⟨-VALUE_INF, 0, -VALUE_CHECKMATE, false⟩ tEmpty1 SearchInfo.new
      ⟨VALUE_INF, none⟩ tEmpty1 SearchInfo.new rfl rfl,
   C3_abort_propagation.2.2 Rstep false (some 2) 3 b0 tEmpty1 SearchInfo.new
      (-VALUE_CHECKMATE) VALUE_CHECKMATE 0 none [⟨0, 0⟩] tEmpty1 si3w
      (by decide) (by decide) (by decide) (by decide) (by decide) rfl⟩

theorem _search_probe_return (R : Rules) (f : Bool) (time : Option Nat)
    (d : Nat) (b : Board) (t : Table) (si : SearchInfo) (lb ub : Value)
    (de : Nat) (r : SearchResult)
    (hrep : repetitionDraw (bumpNodes si) de b.hash = false)
    (habort : ¬(d > 2 ∧ stopCheck f time (si.total_nodes + 1) = true))
    (hprobe : probeTable (t.get b.hash) d ub = ProbeOut.earlyReturn r) :
    _search R f time d b t si lb ub de =
      some (r, t, recordHash (bumpNodes si) de b.hash) := by
  have habort' : ¬(d > 2 ∧
      stopCheck f time (recordHash (bumpNodes si) de b.hash).total_nodes = true) := by
    simpa [recordHash, bumpNodes] using habort
  rw [_search.eq_1]
  simp only [hrep, Bool.false_eq_true, if_false, if_neg habort', hprobe]

/-- Claim C4: on a table probe with a valid, hash-matching entry: with stored
depth ≥ d, kind exact or lower-bound returns the entry's eval and best-move
index; kind upper-bound returns them when its eval ≥ beta and otherwise only
keeps the index as an ordering hint; with shallower stored depth only the
index is kept as a hint; and applying the hint forces that rated move's score
to +INF. -/
theorem C4_table_probe :
    (∀ (R : Rules) (f : Bool) (time : Option Nat) (d : Nat) (b : Board)
        (t : Table) (si : SearchInfo) (lb ub : Value) (de : Nat) (e : Entry),
      t.get b.hash = e → e.is_valid = true → e.hash = b.hash →
      ((e.depth_remaining ≥ d →
          (e.entry_type = EntryType.Exact ∨ e.entry_type = EntryType.LowerBound) →
          probeTable e d ub = ProbeOut.earlyReturn ⟨e.eval, some e.best_move_idx⟩ ∧
          (repetitionDraw (bumpNodes si) de b.hash = false →
            ¬(d > 2 ∧ stopCheck f time (si.total_nodes + 1) = true) →
            _search R f time d b t si lb ub de =
              some (⟨e.eval, some e.best_move_idx⟩, t,
                recordHash (bumpNodes si) de b.hash))) ∧
        (e.depth_remaining ≥ d → e.entry_type = EntryType.UpperBound → e.eval ≥ ub →
          probeTable e d ub = ProbeOut.earlyReturn ⟨e.eval, some e.best_move_idx⟩ ∧
          (repetitionDraw (bumpNodes si) de b.hash = false →
            ¬(d > 2 ∧ stopCheck f time (si.total_nodes + 1) = true) →
            _search R f time d b t si lb ub de =
              some (⟨e.eval, some e.best_move_idx⟩, t,
                recordHash (bumpNodes si) de b.hash))) ∧
        (e.depth_remaining ≥ d → e.entry_type = EntryType.UpperBound → e.eval < ub →
          probeTable e d ub = ProbeOut.useHint (some e.best_move_idx)) ∧
        (e.depth_remaining < d →
          probeTable e d ub = ProbeOut.useHint (some e.best_move_idx)))) ∧
    (∀ (rated : List RatedMove) (i : Nat) (r : RatedMove),
      rated.get? i = some r →
      applyHint rated (some i) = some (rated.set i {r with eval := VALUE_INF})) := by
  refine ⟨?_, ?_⟩
  · intro R f time d b t si lb ub de e he hv hh
    refine ⟨?_, ?_, ?_, ?_⟩
    · intro hdep htype
      have hp : probeTable e d ub = ProbeOut.earlyReturn ⟨e.eval, some e.best_move_idx⟩ := by
        rcases htype with h1 | h1 <;> simp [probeTable, hv, hdep, h1]
      exact ⟨hp, fun hrep habort =>
        _search_probe_return R f time d b t si lb ub de _ hrep habort (by rw [he]; exact hp)⟩
    · intro hdep htype hev
      have hp : probeTable e d ub = ProbeOut.earlyReturn ⟨e.eval, some e.best_move_idx⟩ := by
        simp [probeTable, hv, hdep, htype, hev]
      exact ⟨hp, fun hrep habort =>
        _search_probe_return R f time d b t si lb ub de _ hrep habort (by rw [he]; exact hp)⟩
    · intro hdep htype hlt
      simp [probeTable, hv, hdep, htype, not_le.mpr hlt]
    · intro hdep
      simp [probeTable, hv, not_le.mpr hdep]
  · intro rated i r hget
    rw [List.get?_eq_getElem?] at hget
    simp [applyHint, hget]

/-- Witness for C4 at concrete entries of each kind and depth relation. -/
theorem C4_table_probe_witness :
    _search Rnull false none 1 b4 t4x SearchInfo.new (-VALUE_CHECKMATE) VALUE_CHECKMATE 0 =
      some (⟨42, some 3⟩, t4x, recordHash (bumpNodes SearchInfo.new) 0 b4.hash) ∧
    _search Rnull false none 1 b4 t4u SearchInfo.new (-VALUE_CHECKMATE) 40 0 =
      some (⟨42, some 3⟩, t4u, recordHash (bumpNodes SearchInfo.new) 0 b4.hash) ∧
    probeTable e4u 1 50 = ProbeOut.useHint (some 3) ∧
    probeTable e4x 3 0 = ProbeOut.useHint (some 3) ∧
    applyHint [⟨0, 7⟩, ⟨1, 9⟩] (some 1) = some [⟨0, 7⟩, ⟨1, VALUE_INF⟩] :=
  ⟨((C4_table_probe.1 Rnull false none 1 b4 t4x SearchInfo.new (-VALUE_CHECKMATE)
      VALUE_CHECKMATE 0 e4x (by decide) (by decide) (by decide)).1
      (by decide) (by decide)).2 (by decide) (by decide),
   ((C4_table_probe.1 Rnull false none 1 b4 t4u SearchInfo.new (-VALUE_CHECKMATE)
      40 0 e4u (by decide) (by decide) (by decide)).2.1
      (by decide) (by decide) (by decide)).2 (by decide) (by decide),
   (C4_table_probe.1 Rnull false none 1 b4 t4u SearchInfo.new (-VALUE_CHECKMATE)
      50 0 e4u (by decide) (by decide) (by decide)).2.2.1
      (by decide) (by decide) (by decide),
   (C4_table_probe.1 Rnull false none 3 b4 t4x SearchInfo.new (-VALUE_CHECKMATE)
      0 0 e4x (by decide) (by decide) (by decide)).2.2.2 (by decide),
   C4_table_probe.2 [⟨0, 7⟩, ⟨1, 9⟩] 1 ⟨1, 9⟩ rfl⟩

/-- Claim C5: at an internal node (depth_remaining > 0) reached past the
repetition, abort and probe steps, an empty generated move list makes the
search return -CHECKMATE when in check (checkers ≠ 0) and 0 otherwise, with
no best move; and the quiescence extension returns the same terminal value
when its generated move list is empty. -/
theorem C5_no_moves_terminal :
    (∀ (R : Rules) (f : Bool) (time : Option Nat) (dnext : Nat) (b : Board)
        (t : Table) (si : SearchInfo) (lb ub : Value) (de : Nat) (tbm : Option Nat),
      repetitionDraw (bumpNodes si) de b.hash = false →
      ¬(dnext + 1 > 2 ∧ stopCheck f time (si.total_nodes + 1) = true) →
      probeTable (t.get b.hash) (dnext + 1) ub = ProbeOut.useHint tbm →
      R.generate_moves b = [] →
      _search R f time (dnext + 1) b t si lb ub de =
        some (⟨get_no_moves_eval b, none⟩, t, recordHash (bumpNodes si) de b.hash)) ∧
    (∀ b : Board, b.checkers ≠ 0 → get_no_moves_eval b = -VALUE_CHECKMATE) ∧
    (∀ b : Board, b.checkers = 0 → get_no_moves_eval b = 0) ∧
    (∀ (R : Rules) (dnext : Nat) (b : Board) (si : SearchInfo) (lb ub : Value),
      R.eval_board b < ub →
      R.generate_moves b = [] →
      extension_search R (dnext + 1) b si lb ub = (get_no_moves_eval b, bumpNodes si)) := by
  refine ⟨?_, ?_, ?_, ?_⟩
  · intro R f time dnext b t si lb ub de tbm hrep habort hprobe hmoves
    have habort' : ¬(dnext + 1 > 2 ∧
        stopCheck f time (recordHash (bumpNodes si) de b.hash).total_nodes = true) := by
      simpa [recordHash, bumpNodes] using habort
    rw [_search.eq_1]
    simp only [hrep, Bool.false_eq_true, if_false, if_neg habort', hprobe, hmoves]
    simp
  · intro b h
    simp [get_no_moves_eval, h]
  · intro b h
    simp [get_no_moves_eval, h]
  · intro R dnext b si lb ub hsp hmoves
    rw [extension_search.eq_1]
    simp only [hmoves, not_le.mpr hsp, if_false, ge_iff_le]
    simp [not_le.mpr hsp]

/-- Witness for C5 at a checked position with no legal moves. -/
theorem C5_no_moves_terminal_witness :
    _search Rnull false none 1 bChk tEmpty1 SearchInfo.new
        (-VALUE_CHECKMATE) VALUE_CHECKMATE 0 =
      some (⟨get_no_moves_eval bChk, none⟩, tEmpty1,
        recordHash (bumpNodes SearchInfo.new) 0 bChk.hash) ∧
    get_no_moves_eval bChk = -VALUE_CHECKMATE ∧
    get_no_moves_eval b0 = 0 ∧
    extension_search Rnull 1 bChk SearchInfo.new (-VALUE_CHECKMATE) VALUE_CHECKMATE =
      (get_no_moves_eval bChk, bumpNodes SearchInfo.new) :=
  ⟨C5_no_moves_terminal.1 Rnull false none 0 bChk tEmpty1 SearchInfo.new
      (-VALUE_CHECKMATE) VALUE_CHECKMATE 0 none (by decide) (by decide) (by decide) rfl,
   C5_no_moves_terminal.2.1 bChk (by decide),
   C5_no_moves_terminal.2.2.1 b0 rfl,
   C5_no_moves_terminal.2.2.2 Rnull 0 bChk SearchInfo.new
      (-VALUE_CHECKMATE) VALUE_CHECKMATE (by decide) rfl⟩

/-- Claim C6: a search call with depth_remaining = 0 never enters the full
move loop: past the repetition check and a non-returning probe it delegates to
the quiescence extension with the inherited window and the fixed 4-ply budget,
returning no best move; the quiescence routine returns the stand-pat
evaluation at once when it is ≥ beta, skips non-extending moves, and otherwise
folds over the generated moves with the raised lower bound and budget - 1. -/
theorem C6_leaf_quiescence :
    (∀ (R : Rules) (f : Bool) (time : Option Nat) (b : Board) (t : Table)
        (si : SearchInfo) (lb ub : Value) (de : Nat) (tbm : Option Nat),
      repetitionDraw (bumpNodes si) de b.hash = false →
      probeTable (t.get b.hash) 0 ub = ProbeOut.useHint tbm →
      _search R f time 0 b t si lb ub de =
        some (⟨(extension_search R MAX_EXTENSION_DEPTH b
                  (recordHash (bumpNodes si) de b.hash) lb ub).1, none⟩, t,
              (extension_search R MAX_EXTENSION_DEPTH b
                  (recordHash (bumpNodes si) de b.hash) lb ub).2)) ∧
    MAX_EXTENSION_DEPTH = 4 ∧
    (∀ (R : Rules) (d : Nat) (b : Board) (si : SearchInfo) (lb ub : Value),
      R.eval_board b ≥ ub →
      extension_search R d b si lb ub = (R.eval_board b, bumpNodes si)) ∧
    (∀ (R : Rules) (b : Board) (ub : Value)
        (recur : Board → SearchInfo → Value → Value → Value × SearchInfo)
        (mv : Move) (rest : List Move) (best lb : Value) (si : SearchInfo),
      is_extending_move mv = false →
      extLoop R b ub recur (mv :: rest) best lb si =
        extLoop R b ub recur rest best lb si) ∧
    (∀ (R : Rules) (dnext : Nat) (b : Board) (si : SearchInfo) (lb ub : Value),
      R.eval_board b < ub →
      R.generate_moves b ≠ [] →
      extension_search R (dnext + 1) b si lb ub =
        extLoop R b ub (fun b2 s lb2 ub2 => extension_search R dnext b2 s lb2 ub2)
          (R.generate_moves b) (R.eval_board b)
          (if R.eval_board b > lb then R.eval_board b else lb) (bumpNodes si)) := by
  refine ⟨?_, rfl, ?_, ?_, ?_⟩
  · intro R f time b t si lb ub de tbm hrep hprobe
    have habort' : ¬(0 > 2 ∧
        stopCheck f time (recordHash (bumpNodes si) de b.hash).total_nodes = true) :=
      fun h => absurd h.1 (by decide)
    rw [_search.eq_1]
    simp only [hrep, Bool.false_eq_true, if_false, if_neg habort', hprobe]
  · intro R d b si lb ub hsp
    rw [extension_search.eq_1]
    simp [hsp]
  · intro R b ub recur mv rest best lb si hmv
    simp [extLoop, hmv]
  · intro R dnext b si lb ub hsp hmoves
    rw [extension_search.eq_1]
    simp only [not_le.mpr hsp, ge_iff_le, if_false, hmoves]

/-- Witness for C6 at a depth-0 node over an empty table. -/
theorem C6_leaf_quiescence_witness :
    _search Rnull false none 0 b0 tEmpty1 SearchInfo.new
        (-VALUE_CHECKMATE) VALUE_CHECKMATE 0 =
      some (⟨(extension_search Rnull MAX_EXTENSION_DEPTH b0
                (recordHash (bumpNodes SearchInfo.new) 0 b0.hash)
                (-VALUE_CHECKMATE) VALUE_CHECKMATE).1, none⟩, tEmpty1,
            (extension_search Rnull MAX_EXTENSION_DEPTH b0
                (recordHash (bumpNodes SearchInfo.new) 0 b0.hash)
                (-VALUE_CHECKMATE) VALUE_CHECKMATE).2) ∧
    extension_search Rnull 2 b0 SearchInfo.new 0 (-5) =
      (Rnull.eval_board b0, bumpNodes SearchInfo.new) ∧
    extLoop Rnull b0 VALUE_CHECKMATE (fun _ s _ _ => (0, s)) [mvQ] 0 0 SearchInfo.new =
      extLoop Rnull b0 VALUE_CHECKMATE (fun _ s _ _ => (0, s)) [] 0 0 SearchInfo.new ∧
    extension_search Rstep 1 b0 SearchInfo.new (-VALUE_CHECKMATE) VALUE_CHECKMATE =
      extLoop Rstep b0 VALUE_CHECKMATE
        (fun b2 s lb2 ub2 => extension_search Rstep 0 b2 s lb2 ub2)
        (Rstep.generate_moves b0) (Rstep.eval_board b0)
        (if Rstep.eval_board b0 > -VALUE_CHECKMATE then Rstep.eval_board b0
         else -VALUE_CHECKMATE) (bumpNodes SearchInfo.new) :=
  ⟨C6_leaf_quiescence.1 Rnull false none b0 tEmpty1 SearchInfo.new
      (-VALUE_CHECKMATE) VALUE_CHECKMATE 0 none (by decide) (by decide),
   C6_leaf_quiescence.2.2.1 Rnull 2 b0 SearchInfo.new 0 (-5) (by decide),
   C6_leaf_quiescence.2.2.2.1 Rnull b0 VALUE_CHECKMATE (fun _ s _ _ => (0, s))
      mvQ [] 0 0 SearchInfo.new (by decide),
   C6_leaf_quiescence.2.2.2.2 Rstep 0 b0 SearchInfo.new
      (-VALUE_CHECKMATE) VALUE_CHECKMATE (by decide) (by decide)⟩

theorem searchLoop_done_hit (R : Rules) (b : Board) (moves : List Move) (ub : Value)
    (recur : Board → Table → SearchInfo → Value → Value →
      Option (SearchResult × Table × SearchInfo)) :
    ∀ (l : List RatedMove) (st : LoopSt) (t : Table) (si : SearchInfo)
      (st' : LoopSt) (t' : Table) (si' : SearchInfo),
      searchLoop R b moves ub recur l st t si = LoopOut.done st' t' si' →
      st.upper_bound_hit = false →
      st.best_eval < ub →
      (st'.upper_bound_hit = true ↔
        ∃ v ∈ loopTrace R b moves ub recur l st t si, ub ≤ v) := by
  intro l
  induction l with
  | nil =>
    intro st t si st' t' si' h hhit hlt
    simp only [searchLoop, LoopOut.done.injEq] at h
    obtain ⟨rfl, rfl, rfl⟩ := h
    simp [loopTrace, hhit]
  | cons r rest ih =>
    intro st t si st' t' si' h hhit hlt
    simp only [searchLoop] at h
    simp only [loopTrace]
    cases hrec : recur (R.do_move b (moves.getD r.idx Move.null)) t si
        (-ub) (-st.lower_bound) with
    | none =>
      rw [hrec] at h
      exact absurd h (by simp)
    | some p =>
      obtain ⟨res, t2, si2⟩ := p
      rw [hrec] at h
      by_cases hinf : res.eval = VALUE_INF
      · simp [hinf] at h
      · simp only [hinf, if_false] at h ⊢
        by_cases hgt : R.decay_eval (-res.eval) > st.best_eval
        · simp only [hgt, if_true] at h ⊢
          by_cases hub2 : R.decay_eval (-res.eval) ≥ ub
          · simp only [hub2, if_true] at h ⊢
            simp only [LoopOut.done.injEq] at h
            obtain ⟨rfl, rfl, rfl⟩ := h
            simp [ge_iff_le.mp hub2]
          · simp only [hub2, if_false] at h ⊢
            have := ih _ t2 si2 st' t' si' h hhit (not_le.mp hub2)
            rw [this]
            simp only [List.mem_cons]
            constructor
            · intro ⟨v, hv, hvu⟩
              exact ⟨v, Or.inr hv, hvu⟩
            · rintro ⟨v, hv | hv, hvu⟩
              · exact absurd hvu (by rw [hv] at hvu ⊢; exact not_le.mpr (not_le.mp hub2))
              · exact ⟨v, hv, hvu⟩
        · simp only [hgt, if_false] at h ⊢
          have := ih st t2 si2 st' t' si' h hhit hlt
          rw [this]
          simp only [List.mem_cons]
          have hvlt : ¬ ub ≤ R.decay_eval (-res.eval) :=
            not_le.mpr (lt_of_le_of_lt (not_lt.mp hgt) hlt)
          constructor
          · intro ⟨v, hv, hvu⟩
            exact ⟨v, Or.inr hv, hvu⟩
          · rintro ⟨v, hv | hv, hvu⟩
            · exact absurd hvu (by rw [hv]; exact hvlt)
            · exact ⟨v, hv, hvu⟩

/-- Claim C7: a completed (non-aborted) internal node stores a table entry
carrying the node's depth-remaining, the best value and best-move index found,
with kind upper-bound exactly when a beta cut occurred (some examined child
value reached beta) and exact otherwise; lower-bound is never stored. -/
theorem C7_store_entry_kind
    (R : Rules) (f : Bool) (time : Option Nat) (dnext : Nat) (b : Board)
    (t : Table) (si : SearchInfo) (lb ub : Value) (de : Nat) (tbm : Option Nat)
    (rated : List RatedMove) (st' : LoopSt) (t' : Table) (si' : SearchInfo)
    (hrep : repetitionDraw (bumpNodes si) de b.hash = false)
    (habort : ¬(dnext + 1 > 2 ∧ stopCheck f time (si.total_nodes + 1) = true))
    (hprobe : probeTable (t.get b.hash) (dnext + 1) ub = ProbeOut.useHint tbm)
    (hmoves : R.generate_moves b ≠ [])
    (hhint : applyHint (ratedOf R b (R.generate_moves b)) tbm = some rated)
    (hloop : searchLoop R b (R.generate_moves b) ub
        (fun b2 t2 si2 lb2 ub2 => _search R f time dnext b2 t2 si2 lb2 ub2 (de + 1))
        (sortRated rated) ⟨-VALUE_INF, 0, lb, false⟩ t
        (recordHash (bumpNodes si) de b.hash) = LoopOut.done st' t' si')
    (hub : -VALUE_INF < ub) :
    _search R f time (dnext + 1) b t si lb ub de =
      some (⟨st'.best_eval, some st'.best_move_idx⟩,
        t'.set ⟨b.hash, st'.best_eval, st'.best_move_idx, dnext + 1,
          if st'.upper_bound_hit then EntryType.UpperBound else EntryType.Exact, 0⟩,
        si') ∧
    ((if st'.upper_bound_hit then EntryType.UpperBound else EntryType.Exact) =
        EntryType.UpperBound ↔
      ∃ v ∈ loopTrace R b (R.generate_moves b) ub
          (fun b2 t2 si2 lb2 ub2 => _search R f time dnext b2 t2 si2 lb2 ub2 (de + 1))
          (sortRated rated) ⟨-VALUE_INF, 0, lb, false⟩ t
          (recordHash (bumpNodes si) de b.hash), ub ≤ v) ∧
    (if st'.upper_bound_hit then EntryType.UpperBound else EntryType.Exact) ≠
      EntryType.LowerBound := by
  have hiff := searchLoop_done_hit R b (R.generate_moves b) ub
    (fun b2 t2 si2 lb2 ub2 => _search R f time dnext b2 t2 si2 lb2 ub2 (de + 1))
    (sortRated rated) ⟨-VALUE_INF, 0, lb, false⟩ t
    (recordHash (bumpNodes si) de b.hash) st' t' si' hloop rfl hub
  refine ⟨?_, ?_, ?_⟩
  · have habort' : ¬(dnext + 1 > 2 ∧
        stopCheck f time (recordHash (bumpNodes si) de b.hash).total_nodes = true) := by
      simpa [recordHash, bumpNodes] using habort
    rw [_search.eq_1]
    simp only [hrep, Bool.false_eq_true, if_false, if_neg habort', hprobe, hmoves,
      hhint, hloop]
  · cases hst : st'.upper_bound_hit with
    | false =>
      rw [hst] at hiff
      simp only [Bool.false_eq_true, false_iff] at hiff
      simp only [Bool.false_eq_true, if_false]
      exact iff_of_false (by decide) hiff
    | true =>
      rw [hst] at hiff
      rw [if_pos rfl]
      exact iff_of_true rfl (hiff.mp rfl)
  · cases hst : st'.upper_bound_hit <;> decide

/-- Witness for C7: a one-move node over an empty table stores an exact entry
with depth 1 and the found value and index. -/
theorem C7_store_entry_kind_witness :
    _search Rstep false none 1 b0 tEmpty1 SearchInfo.new
        (-VALUE_CHECKMATE) VALUE_CHECKMATE 0 =
      some (⟨0, some 0⟩, tEmpty1.set ⟨b0.hash, 0, 0, 1, EntryType.Exact, 0⟩,
        bumpNodes si3w) ∧
    (EntryType.Exact : EntryType) ≠ EntryType.LowerBound :=
  ⟨(C7_store_entry_kind Rstep false none 0 b0 tEmpty1 SearchInfo.new
      (-VALUE_CHECKMATE) VALUE_CHECKMATE 0 none [⟨0, 0⟩] ⟨0, 0, 0, false⟩
      tEmpty1 (bumpNodes si3w) (by decide) (by decide) (by decide) (by decide)
      (by decide) rfl (by decide)).1,
   (C7_store_entry_kind Rstep false none 0 b0 tEmpty1 SearchInfo.new
      (-VALUE_CHECKMATE) VALUE_CHECKMATE 0 none [⟨0, 0⟩] ⟨0, 0, 0, false⟩
      tEmpty1 (bumpNodes si3w) (by decide) (by decide) (by decide) (by decide)
      (by decide) rfl (by decide)).2.2⟩

theorem insRated_mem (x : RatedMove) (l : List RatedMove) (a : RatedMove) :
    a ∈ insRated x l ↔ a = x ∨ a ∈ l := by
  induction l with
  | nil => simp [insRated]
  | cons y ys ih =>
    simp only [insRated]
    by_cases h : x.eval > y.eval
    · simp [h, List.mem_cons]
    · simp only [h, if_false, List.mem_cons, ih]
      tauto

theorem insRated_sorted (x : RatedMove) (l : List RatedMove)
    (h : l.Sorted (fun a b : RatedMove => b.eval ≤ a.eval)) :
    (insRated x l).Sorted (fun a b : RatedMove => b.eval ≤ a.eval) := by
  induction l with
  | nil => simp [insRated]
  | cons y ys ih =>
    rw [List.sorted_cons] at h
    obtain ⟨hy, hys⟩ := h
    simp only [insRated]
    by_cases hgt : x.eval > y.eval
    · rw [if_pos hgt, List.sorted_cons]
      refine ⟨?_, by rw [List.sorted_cons]; exact ⟨hy, hys⟩⟩
      intro c hc
      rcases List.mem_cons.mp hc with rfl | hc
      · exact le_of_lt hgt
      · exact le_trans (hy c hc) (le_of_lt hgt)
    · rw [if_neg hgt, List.sorted_cons]
      refine ⟨?_, ih hys⟩
      intro c hc
      rcases (insRated_mem x ys c).mp hc with rfl | hc
      · exact not_lt.mp hgt
      · exact hy c hc

theorem foldl_ins_sorted :
    ∀ (l acc : List RatedMove),
      acc.Sorted (fun a b : RatedMove => b.eval ≤ a.eval) →
      (l.foldl (fun a x => insRated x a) acc).Sorted
        (fun a b : RatedMove => b.eval ≤ a.eval)
  | [], _, h => h
  | x :: xs, acc, h => foldl_ins_sorted xs (insRated x acc) (insRated_sorted x acc h)

theorem sortRated_sorted (l : List RatedMove) :
    (sortRated l).Sorted (fun a b : RatedMove => b.eval ≤ a.eval) :=
  foldl_ins_sorted l [] (by simp)

theorem insRated_filter (x : RatedMove) (l : List RatedMove) (v : Value)
    (h : l.Sorted (fun a b : RatedMove => b.eval ≤ a.eval)) :
    (insRated x l).filter (fun r => r.eval == v) =
      if x.eval = v then l.filter (fun r => r.eval == v) ++ [x]
      else l.filter (fun r => r.eval == v) := by
  induction l with
  | nil => by_cases hxv : x.eval = v <;> simp [insRated, hxv]
  | cons y ys ih =>
    rw [List.sorted_cons] at h
    obtain ⟨hy, hys⟩ := h
    simp only [insRated]
    by_cases hgt : x.eval > y.eval
    · rw [if_pos hgt]
      by_cases hxv : x.eval = v
      · have hnil : (y :: ys).filter (fun r => r.eval == v) = [] := by
          rw [List.filter_eq_nil_iff]
          intro a ha
          rcases List.mem_cons.mp ha with rfl | ha
          · simp only [beq_iff_eq]
            exact fun hc => ne_of_gt hgt (hxv.trans hc.symm)
          · simp only [beq_iff_eq]
            exact fun hc => ne_of_lt (lt_of_le_of_lt (hy a ha) hgt) (hc.trans hxv.symm)
        rw [List.filter_cons_of_pos (by simp [hxv]), hnil, if_pos hxv]
        simp
      · rw [List.filter_cons_of_neg (by simp [hxv]), if_neg hxv]
    · rw [if_neg hgt]
      by_cases hyv : y.eval = v
      · rw [List.filter_cons_of_pos (by simp [hyv]), List.filter_cons_of_pos (by simp [hyv]),
          ih hys]
        by_cases hxv : x.eval = v <;> simp [hxv]
      · rw [List.filter_cons_of_neg (by simp [hyv]), List.filter_cons_of_neg (by simp [hyv]),
          ih hys]

theorem foldl_ins_filter (v : Value) :
    ∀ (l acc : List RatedMove),
      acc.Sorted (fun a b : RatedMove => b.eval ≤ a.eval) →
      (l.foldl (fun a x => insRated x a) acc).filter (fun r => r.eval == v) =
        acc.filter (fun r => r.eval == v) ++ l.filter (fun r => r.eval == v)
  | [], acc, _ => by simp
  | x :: xs, acc, h => by
    simp only [List.foldl_cons]
    rw [foldl_ins_filter v xs (insRated x acc) (insRated_sorted x acc h),
      insRated_filter x acc v h]
    by_cases hxv : x.eval = v
    · rw [if_pos hxv, List.filter_cons_of_pos (by simp [hxv])]
      simp
    · rw [if_neg hxv, List.filter_cons_of_neg (by simp [hxv])]

theorem sortRated_filter (l : List RatedMove) (v : Value) :
    (sortRated l).filter (fun r => r.eval == v) = l.filter (fun r => r.eval == v) := by
  unfold sortRated
  rw [foldl_ins_filter v l [] (by simp)]
  simp

/-- Claim C8: the search is deterministic: identical board, table (and the
other inputs), with the stop flag unset and no deadline, give identical
results; the move-ordering sort is sorted descending by score and stable
(moves with equal scores keep their generator order, here expressed by filter
invariance on every score class). -/
theorem C8_deterministic :
    (∀ (R : Rules) (d : Nat) (b b2 : Board) (t t2 : Table) (si : SearchInfo)
        (lb ub : Value) (de : Nat),
      b = b2 → t = t2 →
      _search R false none d b t si lb ub de =
        _search R false none d b2 t2 si lb ub de) ∧
    (∀ l : List RatedMove,
      (sortRated l).Sorted (fun a b : RatedMove => b.eval ≤ a.eval)) ∧
    (∀ (l : List RatedMove) (v : Value),
      (sortRated l).filter (fun r => r.eval == v) =
        l.filter (fun r => r.eval == v)) := by
  refine ⟨?_, sortRated_sorted, sortRated_filter⟩
  intro R d b b2 t t2 si lb ub de hb ht
  rw [hb, ht]

/-- Witness for C8 at a concrete one-move position. -/
theorem C8_deterministic_witness :
    _search Rstep false none 1 b0 tEmpty1 SearchInfo.new
        (-VALUE_CHECKMATE) VALUE_CHECKMATE 0 =
      _search Rstep false none 1 b0 tEmpty1 SearchInfo.new
        (-VALUE_CHECKMATE) VALUE_CHECKMATE 0 :=
  C8_deterministic.1 Rstep 1 b0 b0 tEmpty1 tEmpty1 SearchInfo.new
    (-VALUE_CHECKMATE) VALUE_CHECKMATE 0 rfl rfl

theorem ratedOf_length (R : Rules) (b : Board) (moves : List Move) :
    (ratedOf R b moves).length = moves.length := by
  simp [ratedOf]

theorem applyHint_none_iff (rated : List RatedMove) (i : Nat) :
    applyHint rated (some i) = none ↔ rated.length ≤ i := by
  rcases hget : rated.get? i with _ | r
  · have hle := List.get?_eq_none.mp hget
    simp only [applyHint, hget]
    simp [hle]
  · have hnle : ¬ rated.length ≤ i := fun hle => by
      rw [List.get?_eq_none.mpr hle] at hget
      exact Option.noConfusion hget
    simp only [applyHint, hget]
    simp [hnle]

/-- Claim C10 (implicit): at an internal node, a probe-produced ordering hint
whose index is out of range for the generated move list makes the search
panic on the unchecked indexing (modelled as none); conversely a none result
of an internal node can only come from that indexing (directly or in a child
via the loop), never from any other step, and a depth-0 call never panics. -/
theorem C10_hint_index_panic :
    (∀ (R : Rules) (f : Bool) (time : Option Nat) (dnext : Nat) (b : Board)
        (t : Table) (si : SearchInfo) (lb ub : Value) (de : Nat) (i : Nat),
      repetitionDraw (bumpNodes si) de b.hash = false →
      ¬(dnext + 1 > 2 ∧ stopCheck f time (si.total_nodes + 1) = true) →
      probeTable (t.get b.hash) (dnext + 1) ub = ProbeOut.useHint (some i) →
      R.generate_moves b ≠ [] →
      (R.generate_moves b).length ≤ i →
      _search R f time (dnext + 1) b t si lb ub de = none) ∧
    (∀ (R : Rules) (f : Bool) (time : Option Nat) (dnext : Nat) (b : Board)
        (t : Table) (si : SearchInfo) (lb ub : Value) (de : Nat),
      _search R f time (dnext + 1) b t si lb ub de = none →
      ∃ tbm, probeTable (t.get b.hash) (dnext + 1) ub = ProbeOut.useHint tbm ∧
        (applyHint (ratedOf R b (R.generate_moves b)) tbm = none ∨
          ∃ rated, applyHint (ratedOf R b (R.generate_moves b)) tbm = some rated ∧
            searchLoop R b (R.generate_moves b) ub
              (fun b2 t2 si2 lb2 ub2 =>
                _search R f time dnext b2 t2 si2 lb2 ub2 (de + 1))
              (sortRated rated) ⟨-VALUE_INF, 0, lb, false⟩ t
              (recordHash (bumpNodes si) de b.hash) = LoopOut.fail)) ∧
    (∀ (R : Rules) (f : Bool) (time : Option Nat) (b : Board) (t : Table)
        (si : SearchInfo) (lb ub : Value) (de : Nat),
      _search R f time 0 b t si lb ub de ≠ none) ∧
    (∀ (rated : List RatedMove) (i : Nat),
      applyHint rated (some i) = none ↔ rated.length ≤ i) := by
  refine ⟨?_, ?_, ?_, applyHint_none_iff⟩
  · intro R f time dnext b t si lb ub de i hrep habort hprobe hmoves hoob
    have habort' : ¬(dnext + 1 > 2 ∧
        stopCheck f time (recordHash (bumpNodes si) de b.hash).total_nodes = true) := by
      simpa [recordHash, bumpNodes] using habort
    have hnone : applyHint (ratedOf R b (R.generate_moves b)) (some i) = none := by
      rw [applyHint_none_iff, ratedOf_length]
      exact hoob
    rw [_search.eq_1]
    simp only [hrep, Bool.false_eq_true, if_false, if_neg habort', hprobe, hmoves, hnone]
  · intro R f time dnext b t si lb ub de h
    rw [_search.eq_1] at h
    by_cases hrep : repetitionDraw (bumpNodes si) de b.hash = true
    · simp only [hrep, if_true] at h
      exact absurd h (by simp)
    · simp only [hrep, Bool.false_eq_true, if_false] at h
      by_cases hstop : dnext + 1 > 2 ∧
          stopCheck f time (recordHash (bumpNodes si) de b.hash).total_nodes = true
      · rw [if_pos hstop] at h
        exact absurd h (by simp)
      · rw [if_neg hstop] at h
        cases hprobe : probeTable (t.get b.hash) (dnext + 1) ub with
        | earlyReturn r =>
          simp only [hprobe] at h
          exact absurd h (by simp)
        | useHint tbm =>
          simp only [hprobe] at h
          by_cases hmoves : R.generate_moves b = []
          · rw [if_pos hmoves] at h
            exact absurd h (by simp)
          · rw [if_neg hmoves] at h
            cases hhint : applyHint (ratedOf R b (R.generate_moves b)) tbm with
            | none => exact ⟨tbm, rfl, Or.inl hhint⟩
            | some rated =>
              simp only [hhint] at h
              cases hloop : searchLoop R b (R.generate_moves b) ub
                  (fun b2 t2 si2 lb2 ub2 =>
                    _search R f time dnext b2 t2 si2 lb2 ub2 (de + 1))
                  (sortRated rated) ⟨-VALUE_INF, 0, lb, false⟩ t
                  (recordHash (bumpNodes si) de b.hash) with
              | fail => exact ⟨tbm, rfl, Or.inr ⟨rated, hhint, hloop⟩⟩
              | abort t2 si2 =>
                simp only [hloop] at h
                exact absurd h (by simp)
              | done st t2 si2 =>
                simp only [hloop] at h
                exact absurd h (by simp)
  · intro R f time b t si lb ub de h
    rw [_search.eq_1] at h
    by_cases hrep : repetitionDraw (bumpNodes si) de b.hash = true
    · simp only [hrep, if_true] at h
      exact absurd h (by simp)
    · simp only [hrep, Bool.false_eq_true, if_false] at h
      rw [if_neg (fun hc => absurd hc.1 (by decide))] at h
      cases hprobe : probeTable (t.get b.hash) 0 ub with
      | earlyReturn r =>
        simp only [hprobe] at h
        exact absurd h (by simp)
      | useHint tbm =>
        simp only [hprobe] at h
        exact absurd h (by simp)

/-- Witness for C10 at a concrete shallow entry with an out-of-range index. -/
theorem C10_hint_index_panic_witness :
    _search Rstep false none 2 b0 t10 SearchInfo.new
        (-VALUE_CHECKMATE) VALUE_CHECKMATE 0 = none ∧
    _search Rstep false none 0 b0 t10 SearchInfo.new
        (-VALUE_CHECKMATE) VALUE_CHECKMATE 0 ≠ none ∧
    (applyHint [⟨0, 7⟩] (some 5) = none ↔ (1 : Nat) ≤ 5) :=
  ⟨C10_hint_index_panic.1 Rstep false none 1 b0 t10 SearchInfo.new
      (-VALUE_CHECKMATE) VALUE_CHECKMATE 0 5 (by decide) (by decide) (by decide)
      (by decide) (by decide),
   C10_hint_index_panic.2.2.1 Rstep false none b0 t10 SearchInfo.new
      (-VALUE_CHECKMATE) VALUE_CHECKMATE 0,
   C10_hint_index_panic.2.2.2 [⟨0, 7⟩] 5⟩
